import Mathlib

/-!
Verification of the tarot-game program (`main.py`) against its
natural-language specification.  The program is shallowly embedded: JSON
values exchanged with the text-generation service are an inductive type,
the single-pass keyword substitution of Python string formatting is an
executable function over character lists, and the whole session
(`main`) is a deterministic function of an `Env` record that resolves
every external input (environment variable, files, console input,
service replies, randomness, clock).  Observable actions are collected
in an event trace.
-/

set_option linter.unusedVariables false

/-- A JSON value, as produced by parsing a service response. -/
inductive Json where
  | null : Json
  | bool (b : Bool) : Json
  | num (n : Int) : Json
  | str (s : String) : Json
  | arr (elems : List Json) : Json
  | obj (fields : List (String × Json)) : Json

/-- One card definition from `cards.json`:
name plus the keyword list of each of the two orientations. -/
structure Card where
  name : String
  upright_keywords : List String
  reversed_keywords : List String
deriving DecidableEq, Repr

/-- The record built in `main` for one draw (main.py lines 129-136).
The dictionary key carrying the card name in the source is `card`. -/
structure DrawRecord where
  step : Nat
  position : String
  card : String
  orientation : String
  keywords : List String
  interpretation : Json

/-- The session state dictionary built in `main` (main.py lines 79-85). -/
structure SessionState where
  topic : Json
  question : Json
  emotion : Json
  constraints : Json
  draw_history : List DrawRecord

/-- Lookup of a key in an association list of JSON object fields,
first match wins (Python dictionaries have unique keys). -/
def lookupField : List (String × Json) → String → Option Json
  | [], _ => none
  | (k2, v) :: rest, k => if k2 = k then some v else lookupField rest k

/-- Python dictionary access `d[k]` / `d.get(k)` on a parsed JSON value:
defined on objects, `none` everywhere else and on a missing key. -/
def Json.get : Json → String → Option Json
  | .obj fs, k => lookupField fs k
  | _, _ => none

/-- The keys of a JSON object, in order. -/
def objKeys : Json → List String
  | .obj fs => fs.map (fun kv => kv.1)
  | _ => []

/-- The failure kinds the program can hit: the startup ValueError for a
missing key (main.py line 11), OSError for a missing file, JSONDecodeError,
KeyError (dictionary or format lookup), ValueError from string formatting,
IndexError (random.choice on an empty sequence, positional format field). -/
inductive Err where
  | missingApiKey : Err
  | missingFile (name : String) : Err
  | jsonDecodeError : Err
  | keyError (name : String) : Err
  | valueError : Err
  | indexError : Err
deriving DecidableEq, Repr

mutual
/-- Models json.dumps(v, ensure_ascii=False) on a parsed JSON value, up to
whitespace layout (the source passes indent=2; only the fact that the
serialized history is passed as a template variable matters here, no theorem
inspects the rendered text). -/
def jsonDumps : Json → String
  | .null => "null"
  | .bool b => if b then "true" else "false"
  | .num n => toString n
  | .str s => "\"" ++ s ++ "\""
  | .arr xs => "[" ++ jsonDumpsList xs ++ "]"
  | .obj fs => "\x7b" ++ jsonDumpsFields fs ++ "\x7d"

/-- Comma-separated serialization of a JSON array body. -/
def jsonDumpsList : List Json → String
  | [] => ""
  | [x] => jsonDumps x
  | x :: y :: rest => jsonDumps x ++ ", " ++ jsonDumpsList (y :: rest)

/-- Comma-separated serialization of a JSON object body. -/
def jsonDumpsFields : List (String × Json) → String
  | [] => ""
  | [(k, v)] => "\"" ++ k ++ "\": " ++ jsonDumps v
  | (k, v) :: f :: rest =>
    "\"" ++ k ++ "\": " ++ jsonDumps v ++ ", " ++ jsonDumpsFields (f :: rest)
end

instance : Repr Json := ⟨fun j _ => Std.Format.text (jsonDumps j)⟩

deriving instance Repr for DrawRecord
deriving instance Repr for SessionState

mutual
/-- Models Python repr() on a value parsed from JSON (used through str() when
format interpolates a list or dictionary value). -/
def pyRepr : Json → String
  | .null => "None"
  | .bool b => if b then "True" else "False"
  | .num n => toString n
  | .str s => "\x27" ++ s ++ "\x27"
  | .arr xs => "[" ++ pyReprList xs ++ "]"
  | .obj fs => "\x7b" ++ pyReprFields fs ++ "\x7d"

/-- Comma-separated repr of the elements of a list. -/
def pyReprList : List Json → String
  | [] => ""
  | [x] => pyRepr x
  | x :: y :: rest => pyRepr x ++ ", " ++ pyReprList (y :: rest)

/-- Comma-separated repr of the items of a dictionary. -/
def pyReprFields : List (String × Json) → String
  | [] => ""
  | [(k, v)] => "\x27" ++ k ++ "\x27: " ++ pyRepr v
  | (k, v) :: f :: rest =>
    "\x27" ++ k ++ "\x27: " ++ pyRepr v ++ ", " ++ pyReprFields (f :: rest)
end

/-- Models Python str() on a value parsed from JSON: strings render as
themselves, everything else as its repr. -/
def pyStr : Json → String
  | .str s => s
  | .null => pyRepr .null
  | .bool b => pyRepr (.bool b)
  | .num n => pyRepr (.num n)
  | .arr xs => pyRepr (.arr xs)
  | .obj fs => pyRepr (.obj fs)

/-- Embedding of draw_card (main.py lines 49-54).  The consumed randomness is
passed explicitly: cardChoice is reduced modulo the deck size because
random.choice on a non-empty sequence always yields an in-range index, while
on an empty sequence it raises IndexError; orientUpright is the coin for
random.choice(["upright", "reversed"]). -/
def draw_card (cards : List Card) (cardChoice : Nat) (orientUpright : Bool) :
    Except Err (String × String × List String) :=
  match cards.get? (cardChoice % cards.length) with
  | none => .error .indexError
  | some card =>
    let orientation := if orientUpright then "upright" else "reversed"
    let keywords :=
      if orientation = "upright" then card.upright_keywords else card.reversed_keywords
    .ok (card.name, orientation, keywords)

/-- Lookup in the keyword-argument mapping passed to format. -/
def lookupVar : List (String × String) → String → Option String
  | [], _ => none
  | (k2, v) :: rest, k => if k2 = k then some v else lookupVar rest k

/-- Scanner mode of the format machine: copying literal text, or reading the
name of a replacement field (accumulated characters so far). -/
inductive FmtMode where
  | text : FmtMode
  | field (nm : List Char) : FmtMode

/-- Models CPython str.format on a template whose replacement fields are
simple named fields: literal text is copied, a double brace is an escaped
brace, a field reads its name up to the closing brace and splices the looked
up value literally in a single pass (the spliced value is never rescanned).
A missing name raises KeyError; a malformed field (unterminated brace, lone
closing brace, brace inside a field name) raises ValueError; an empty or
all-digit field name is positional and raises IndexError because the program
passes keyword arguments only. -/
def renderFmt (vars : List (String × String)) : FmtMode → List Char → Except Err String
  | .text, [] => .ok ""
  | .text, c :: rest =>
    if c = '{' then
      match rest with
      | [] => .error .valueError
      | c2 :: rest2 =>
        if c2 = '{' then
          match renderFmt vars .text rest2 with
          | .error e => .error e
          | .ok out => .ok ("\x7b" ++ out)
        else renderFmt vars (.field []) (c2 :: rest2)
    else if c = '}' then
      match rest with
      | [] => .error .valueError
      | c2 :: rest2 =>
        if c2 = '}' then
          match renderFmt vars .text rest2 with
          | .error e => .error e
          | .ok out => .ok ("\x7d" ++ out)
        else .error .valueError
    else
      match renderFmt vars .text rest with
      | .error e => .error e
      | .ok out => .ok (String.mk [c] ++ out)
  | .field _, [] => .error .valueError
  | .field nm, c :: rest =>
    if c = '}' then
      if nm.isEmpty then .error .indexError
      else if nm.all (fun ch => ch.isDigit) then .error .indexError
      else
        match lookupVar vars (String.mk nm) with
        | none => .error (.keyError (String.mk nm))
        | some v =>
          match renderFmt vars .text rest with
          | .error e => .error e
          | .ok out => .ok (v ++ out)
    else if c = '{' then .error .valueError
    else renderFmt vars (.field (nm ++ [c])) rest

/-- The named placeholders a template references, in order; none when the
template is not a well-formed sequence of literal text, double-brace escapes
and simple named fields.  Mirrors the scan of renderFmt case by case. -/
def collectRefsM : FmtMode → List Char → Option (List String)
  | .text, [] => some []
  | .text, c :: rest =>
    if c = '{' then
      match rest with
      | [] => none
      | c2 :: rest2 =>
        if c2 = '{' then collectRefsM .text rest2
        else collectRefsM (.field []) (c2 :: rest2)
    else if c = '}' then
      match rest with
      | [] => none
      | c2 :: rest2 =>
        if c2 = '}' then collectRefsM .text rest2
        else none
    else collectRefsM .text rest
  | .field _, [] => none
  | .field nm, c :: rest =>
    if c = '}' then
      if nm.isEmpty then none
      else if nm.all (fun ch => ch.isDigit) then none
      else
        match collectRefsM .text rest with
        | none => none
        | some ns => some (String.mk nm :: ns)
    else if c = '{' then none
    else collectRefsM (.field (nm ++ [c])) rest

/-- The placeholders of a template, scanned from its first character. -/
def collectRefs (template : String) : Option (List String) :=
  collectRefsM .text template.data

/-- Embedding of prompt.format(**variables) (main.py line 32) for the simple
named-field templates this program uses. -/
def pythonFormat (template : String) (vars : List (String × String)) : Except Err String :=
  renderFmt vars .text template.data

/-- Serialization of a draw record into the JSON value whose dump the program
writes: the dictionary of main.py lines 129-136, keys in insertion order. -/
def DrawRecord.toJson (d : DrawRecord) : Json :=
  .obj [("step", .num (d.step : Int)), ("position", .str d.position),
        ("card", .str d.card), ("orientation", .str d.orientation),
        ("keywords", .arr (d.keywords.map Json.str)),
        ("interpretation", d.interpretation)]

/-- Serialization of the session state: the dictionary of main.py lines 79-85
with its draw history serialized record by record. -/
def SessionState.toJson (s : SessionState) : Json :=
  .obj [("topic", s.topic), ("question", s.question), ("emotion", s.emotion),
        ("constraints", s.constraints),
        ("draw_history", .arr (s.draw_history.map DrawRecord.toJson))]

/-- Reads back a list of JSON strings (inverse of mapping Json.str). -/
def strListOfJson : List Json → Option (List String)
  | [] => some []
  | .str s :: rest =>
    match strListOfJson rest with
    | none => none
    | some ss => some (s :: ss)
  | _ :: _ => none

/-- Deserializer for one draw record, inverse of DrawRecord.toJson. -/
def DrawRecord.ofJson (j : Json) : Option DrawRecord :=
  match j.get "step", j.get "position", j.get "card", j.get "orientation",
        j.get "keywords", j.get "interpretation" with
  | some (.num st), some (.str pos), some (.str cd), some (.str ori),
      some (.arr kws), some interp =>
    match strListOfJson kws with
    | some ks => some ⟨st.toNat, pos, cd, ori, ks, interp⟩
    | none => none
  | _, _, _, _, _, _ => none

/-- Deserializer for a serialized draw history. -/
def drawListOfJson : List Json → Option (List DrawRecord)
  | [] => some []
  | j :: rest =>
    match DrawRecord.ofJson j with
    | none => none
    | some d =>
      match drawListOfJson rest with
      | none => none
      | some ds => some (d :: ds)

/-- Deserializer for a persisted session state, inverse of
SessionState.toJson. -/
def SessionState.ofJson (j : Json) : Option SessionState :=
  match j.get "topic", j.get "question", j.get "emotion", j.get "constraints",
        j.get "draw_history" with
  | some t, some q, some e, some c, some (.arr hs) =>
    match drawListOfJson hs with
    | some ds => some ⟨t, q, e, c, ds⟩
    | none => none
  | _, _, _, _, _ => none

/-- Content of one persisted artifact: the JSON value whose dump is written
(run_T.json), or raw text written verbatim (run_T.md). -/
inductive FileContent where
  | jsonFile (value : Json) : FileContent
  | textFile (text : String) : FileContent

/-- Embedding of the Session Recorder (main.py lines 159-164): exactly two
files named from the one timestamp taken at save time. -/
def recorder (state : SessionState) (review : String) (ts : String) :
    List (String × FileContent) :=
  [("run_" ++ ts ++ ".json", .jsonFile (SessionState.toJson state)),
   ("run_" ++ ts ++ ".md", .textFile review)]

/-- Observable actions of one run, in program order. -/
inductive Event where
  | readCards : Event
  | readTemplate (name : String) : Event
  | promptUser (label : String) : Event
  | intentCall : Event
  | drawEvent (step : Nat) : Event
  | firstInterpretCall : Event
  | nextInterpretCall (step : Nat) (history : List DrawRecord) : Event
  | reviewCall (history : List DrawRecord) : Event
  | writeFile (name : String) (content : FileContent) : Event

deriving instance Repr for FileContent
deriving instance Repr for Event

/-- True exactly on draw events. -/
def Event.isDraw : Event → Bool
  | .drawEvent _ => true
  | _ => false

/-- True exactly on file-write events. -/
def Event.isWrite : Event → Bool
  | .writeFile _ _ => true
  | _ => false

/-- True exactly on the intent-extraction service call. -/
def Event.isIntent : Event → Bool
  | .intentCall => true
  | _ => false

/-- Resolution of every external input of one run: the environment variable,
the data and template files (none = missing or unreadable), console input,
the parse result of each structured service reply (index 0 for intent, the
step number 1-3 for interpretations; none = json.loads failure), the raw
review reply, the randomness stream and the clock. -/
structure Env where
  apiKeyEnv : Option String
  cards : Option (List Card)
  intentTemplate : Option String
  firstTemplate : Option String
  nextTemplate : Option String
  reviewTemplate : Option String
  topicInput : String
  playerText : String
  llmJson : Nat → Option Json
  llmText : String
  cardChoice : Nat → Nat
  orientChoice : Nat → Bool
  timestamp : String

/-- Embedding of call_llm with json_mode=True (main.py lines 30-47): fill the
template (format may raise before any request is issued), then issue the
request (the event) and parse the reply; a reply json.loads cannot parse is a
JSONDecodeError. -/
def call_llm_json (tmpl : String) (vars : List (String × String)) (ev : Event)
    (reply : Option Json) : List Event × Except Err Json :=
  match pythonFormat tmpl vars with
  | .error e => ([], .error e)
  | .ok _ =>
    match reply with
    | none => ([ev], .error .jsonDecodeError)
    | some v => ([ev], .ok v)

/-- Embedding of call_llm with json_mode=False: the raw reply text is
returned unparsed. -/
def call_llm_text (tmpl : String) (vars : List (String × String)) (ev : Event)
    (reply : String) : List Event × Except Err String :=
  match pythonFormat tmpl vars with
  | .error e => ([], .error e)
  | .ok _ => ([ev], .ok reply)

/-- The interpretation request of one loop iteration (main.py lines 93-127):
the first-draw variant for step 1, the subsequent variant (with the prior
history serialized into the prompt) for steps 2 and 3. -/
def interpCall (env : Env) (firstT nextT : String) (state : SessionState)
    (step : Nat) (pos card_name orientation : String) (keywords : List String) :
    List Event × Except Err Json :=
  if step = 1 then
    call_llm_json firstT
      [("topic", pyStr state.topic), ("question", pyStr state.question),
       ("emotion", pyStr state.emotion), ("constraints", pyStr state.constraints),
       ("position", pos), ("card_name", card_name), ("orientation", orientation),
       ("keywords", pyRepr (.arr (keywords.map Json.str)))]
      Event.firstInterpretCall (env.llmJson step)
  else
    call_llm_json nextT
      [("step", toString step), ("topic", pyStr state.topic),
       ("question", pyStr state.question), ("emotion", pyStr state.emotion),
       ("constraints", pyStr state.constraints),
       ("history_json", jsonDumps (.arr (state.draw_history.map DrawRecord.toJson))),
       ("position", pos), ("card_name", card_name), ("orientation", orientation),
       ("keywords", pyRepr (.arr (keywords.map Json.str)))]
      (Event.nextInterpretCall step state.draw_history) (env.llmJson step)

/-- The draw-and-interpret loop (main.py lines 90-137), driven by the list of
remaining positions; step is the 1-based index of the next draw. -/
def runSteps (env : Env) (cards : List Card) (firstT nextT : String) :
    SessionState → Nat → List String → List Event × Except Err SessionState
  | state, _, [] => ([], .ok state)
  | state, step, pos :: rest =>
    match draw_card cards (env.cardChoice step) (env.orientChoice step) with
    | .error e => ([], .error e)
    | .ok (card_name, orientation, keywords) =>
      match interpCall env firstT nextT state step pos card_name orientation keywords with
      | (evs1, .error e) => (Event.drawEvent step :: evs1, .error e)
      | (evs1, .ok interp) =>
        let record : DrawRecord := ⟨step, pos, card_name, orientation, keywords, interp⟩
        match runSteps env cards firstT nextT
            { state with draw_history := state.draw_history ++ [record] }
            (step + 1) rest with
        | (evs2, res) => (Event.drawEvent step :: evs1 ++ evs2, res)

/-- The session state right after intent extraction (main.py lines 79-85):
required key question, defaulted topic, emotion and constraints. -/
def initState (env : Env) (intent : Json) (questionV : Json) : SessionState :=
  { topic := (intent.get "topic").getD (.str env.topicInput)
    question := questionV
    emotion := (intent.get "emotion").getD (.str "other")
    constraints := (intent.get "constraints").getD (.arr [])
    draw_history := [] }

/-- The variables of the intent-extraction call (main.py lines 73-77). -/
def intentVars (env : Env) : List (String × String) :=
  [("player_text", "[topic_hint=" ++ env.topicInput ++ "] " ++ env.playerText)]

/-- The observable actions between a successful startup and the first service
call: reading card data and the four templates, then the two console prompts
(main.py lines 57-70). -/
def startupEvents : List Event :=
  [Event.readCards, Event.readTemplate "intent_parser.txt",
   Event.readTemplate "interpret_first.txt", Event.readTemplate "interpret_next.txt",
   Event.readTemplate "final_review.txt", Event.promptUser "topic",
   Event.promptUser "question"]

/-- The variables of the final-review call (main.py lines 148-156). -/
def reviewVars (s : SessionState) : List (String × String) :=
  [("topic", pyStr s.topic), ("question", pyStr s.question),
   ("history_json", jsonDumps (.arr (s.draw_history.map DrawRecord.toJson)))]

/-- Embedding of main() (main.py lines 56-168). -/
def runMain (env : Env) :
    List Event × Except Err (SessionState × String × List (String × FileContent)) :=
  match env.cards with
  | none => ([], .error (.missingFile "cards.json"))
  | some cards =>
  match env.intentTemplate with
  | none => ([Event.readCards], .error (.missingFile "intent_parser.txt"))
  | some intentT =>
  match env.firstTemplate with
  | none =>
    ([Event.readCards, Event.readTemplate "intent_parser.txt"],
     .error (.missingFile "interpret_first.txt"))
  | some firstT =>
  match env.nextTemplate with
  | none =>
    ([Event.readCards, Event.readTemplate "intent_parser.txt",
      Event.readTemplate "interpret_first.txt"],
     .error (.missingFile "interpret_next.txt"))
  | some nextT =>
  match env.reviewTemplate with
  | none =>
    ([Event.readCards, Event.readTemplate "intent_parser.txt",
      Event.readTemplate "interpret_first.txt", Event.readTemplate "interpret_next.txt"],
     .error (.missingFile "final_review.txt"))
  | some reviewT =>
  match call_llm_json intentT (intentVars env) Event.intentCall (env.llmJson 0) with
  | (evs1, .error e) => (startupEvents ++ evs1, .error e)
  | (evs1, .ok intent) =>
  match intent.get "question" with
  | none => (startupEvents ++ evs1, .error (.keyError "question"))
  | some questionV =>
  match runSteps env cards firstT nextT (initState env intent questionV) 1
      ["past", "present", "future"] with
  | (evs2, .error e) => (startupEvents ++ evs1 ++ evs2, .error e)
  | (evs2, .ok finalState) =>
  match call_llm_text reviewT (reviewVars finalState)
      (Event.reviewCall finalState.draw_history) env.llmText with
  | (evs3, .error e) => (startupEvents ++ evs1 ++ evs2 ++ evs3, .error e)
  | (evs3, .ok review) =>
    let files := recorder finalState review env.timestamp
    (startupEvents ++ evs1 ++ evs2 ++ evs3 ++ files.map (fun f => Event.writeFile f.1 f.2),
     .ok (finalState, review, files))

/-- The whole program: the module-level startup check of main.py lines 8-15
(os.getenv with fallback "", a fatal ValueError when the result is empty,
before anything else happens) followed by main(). -/
def runProgram (env : Env) :
    List Event × Except Err (SessionState × String × List (String × FileContent)) :=
  let OPENAI_API_KEY := env.apiKeyEnv.getD ""
  if OPENAI_API_KEY = "" then ([], .error .missingApiKey)
  else runMain env

/-- A one-card deck used by the concrete witness runs. -/
def theFool : Card := ⟨"The Fool", ["beginnings", "innocence"], ["recklessness"]⟩

/-- A concrete resolution of the external world on which the session
completes successfully. -/
def envW : Env :=
  { apiKeyEnv := some "sk-test"
    cards := some [theFool]
    intentTemplate := some "Parse: {player_text}"
    firstTemplate := some "First card {card_name} at {position}."
    nextTemplate := some "Step {step} history {history_json} card {card_name}."
    reviewTemplate := some "Review {topic} / {question} with {history_json}."
    topicInput := "love"
    playerText := "Will we reconcile?"
    llmJson := fun n =>
      if n = 0 then some (Json.obj [("question", Json.str "Will we reconcile?")])
      else some (Json.obj [("summary", Json.str "ok")])
    llmText := "All three cards point to renewal."
    cardChoice := fun _ => 0
    orientChoice := fun _ => true
    timestamp := "20250101_120000" }

/-- The draw record the witness run appends at a given step and position. -/
def recW (step : Nat) (pos : String) : DrawRecord :=
  ⟨step, pos, "The Fool", "upright", ["beginnings", "innocence"],
   Json.obj [("summary", Json.str "ok")]⟩

/-- The final session state of the witness run. -/
def stateW : SessionState :=
  ⟨Json.str "love", Json.str "Will we reconcile?", Json.str "other", Json.arr [],
   [recW 1 "past", recW 2 "present", recW 3 "future"]⟩

/-- The files the witness run writes. -/
def filesW : List (String × FileContent) :=
  recorder stateW "All three cards point to renewal." "20250101_120000"

/-- The event trace of the witness run. -/
def traceW : List Event :=
  startupEvents ++
  [Event.intentCall,
   Event.drawEvent 1, Event.firstInterpretCall,
   Event.drawEvent 2, Event.nextInterpretCall 2 [recW 1 "past"],
   Event.drawEvent 3, Event.nextInterpretCall 3 [recW 1 "past", recW 2 "present"],
   Event.reviewCall [recW 1 "past", recW 2 "present", recW 3 "future"],
   Event.writeFile "run_20250101_120000.json"
     (FileContent.jsonFile (SessionState.toJson stateW)),
   Event.writeFile "run_20250101_120000.md"
     (FileContent.textFile "All three cards point to renewal.")]

/-- The witness run evaluates as expected. -/
theorem runProgram_envW :
    runProgram envW = (traceW, .ok (stateW, "All three cards point to renewal.", filesW)) := by
  rfl

/-- A json-mode service call that returns ok issued exactly one request and
handed back the parsed reply. -/
theorem call_llm_json_ok (tmpl : String) (vars : List (String × String)) (ev : Event)
    (reply : Option Json) (evs : List Event) (v : Json)
    (h : call_llm_json tmpl vars ev reply = (evs, .ok v)) :
    evs = [ev] ∧ reply = some v := by
  unfold call_llm_json at h
  split at h
  · simp at h
  · split at h
    · simp at h
    · simp at h
      obtain ⟨h1, h2⟩ := h
      subst h1
      simp [h2]

/-- A text-mode service call that returns ok issued exactly one request and
handed back the raw reply. -/
theorem call_llm_text_ok (tmpl : String) (vars : List (String × String)) (ev : Event)
    (reply : String) (evs : List Event) (out : String)
    (h : call_llm_text tmpl vars ev reply = (evs, .ok out)) :
    evs = [ev] ∧ out = reply := by
  unfold call_llm_text at h
  split at h
  · simp at h
  · simp at h
    obtain ⟨h1, h2⟩ := h
    subst h1
    simp [h2]

/-- The events a service call can emit are at most the single request. -/
theorem call_llm_json_events (tmpl : String) (vars : List (String × String)) (ev : Event)
    (reply : Option Json) (evs : List Event) (r : Except Err Json)
    (h : call_llm_json tmpl vars ev reply = (evs, r)) : evs = [] ∨ evs = [ev] := by
  unfold call_llm_json at h
  split at h
  · simp at h
    exact Or.inl h.1
  · split at h <;> simp at h <;> exact Or.inr h.1.symm

/-- Positions of the records a completed loop run appends: exactly the
positions it was driven with, in order. -/
theorem runSteps_ok_positions (env : Env) (cards : List Card) (firstT nextT : String) :
    ∀ (posList : List String) (state : SessionState) (step : Nat) (evs : List Event)
      (s2 : SessionState),
      runSteps env cards firstT nextT state step posList = (evs, .ok s2) →
      s2.draw_history.map (fun d => d.position) =
        state.draw_history.map (fun d => d.position) ++ posList := by
  intro posList
  induction posList with
  | nil =>
    intro state step evs s2 h
    simp [runSteps] at h
    rw [← h.2]
    simp
  | cons pos rest ih =>
    intro state step evs s2 h
    rw [runSteps] at h
    split at h
    · simp at h
    · rename_i cn o kw hdraw
      split at h
      · simp at h
      · rename_i evs1 interp hint
        dsimp only at h
        rcases h2 : runSteps env cards firstT nextT
            { state with draw_history :=
                state.draw_history ++ [⟨step, pos, cn, o, kw, interp⟩] }
            (step + 1) rest with ⟨evs2, res⟩
        rw [h2] at h
        simp at h
        obtain ⟨hevs, hres⟩ := h
        subst hres
        have := ih _ _ _ _ h2
        simp at this
        rw [this]

/-- Inversion of a successful run of main: every stage succeeded in order and
the trace decomposes stage by stage. -/
theorem runMain_ok (env : Env) (tr : List Event) (s : SessionState)
    (review : String) (files : List (String × FileContent))
    (h : runMain env = (tr, .ok (s, review, files))) :
    ∃ (cards : List Card) (intentT firstT nextT reviewT : String)
      (intent questionV : Json) (evs2 : List Event),
      env.cards = some cards ∧
      env.intentTemplate = some intentT ∧
      env.firstTemplate = some firstT ∧
      env.nextTemplate = some nextT ∧
      env.reviewTemplate = some reviewT ∧
      call_llm_json intentT (intentVars env) Event.intentCall (env.llmJson 0) =
        ([Event.intentCall], .ok intent) ∧
      Json.get intent "question" = some questionV ∧
      runSteps env cards firstT nextT (initState env intent questionV) 1
        ["past", "present", "future"] = (evs2, .ok s) ∧
      review = env.llmText ∧
      files = recorder s review env.timestamp ∧
      tr = startupEvents ++ [Event.intentCall] ++ evs2 ++
        [Event.reviewCall s.draw_history] ++
        files.map (fun f => Event.writeFile f.1 f.2) := by
  unfold runMain at h
  split at h
  · simp at h
  rename_i cards hcards
  split at h
  · simp at h
  rename_i intentT hintentT
  split at h
  · simp at h
  rename_i firstT hfirstT
  split at h
  · simp at h
  rename_i nextT hnextT
  split at h
  · simp at h
  rename_i reviewT hreviewT
  split at h
  · simp at h
  rename_i evs1 intent hcall
  split at h
  · simp at h
  rename_i questionV hq
  split at h
  · simp at h
  rename_i evs2 finalState hsteps
  split at h
  · simp at h
  rename_i evs3 review0 hrevcall
  dsimp only at h
  simp at h
  obtain ⟨htr, hfs, hrev, hfiles⟩ := h
  obtain ⟨hevs1, _⟩ := call_llm_json_ok _ _ _ _ _ _ hcall
  obtain ⟨hevs3, hrev0⟩ := call_llm_text_ok _ _ _ _ _ _ hrevcall
  subst hevs1
  subst hevs3
  subst hfs
  subst hrev
  subst hfiles
  subst htr
  exact ⟨cards, intentT, firstT, nextT, reviewT, intent, questionV, evs2,
    hcards, hintentT, hfirstT, hnextT, hreviewT, hcall, hq, hsteps, hrev0, rfl,
    by simp⟩

/-- C1: a session that completes successfully ends with a draw history of
exactly 3 entries whose position fields are exactly past, present, future in
that order; each entry is one record carrying one drawn card and one
orientation by construction. -/
theorem C1_draw_history_three_positions (env : Env) (tr : List Event)
    (s : SessionState) (review : String) (files : List (String × FileContent))
    (h : runProgram env = (tr, .ok (s, review, files))) :
    s.draw_history.map (fun d => d.position) = ["past", "present", "future"] ∧
    s.draw_history.length = 3 := by
  unfold runProgram at h
  dsimp only at h
  split at h
  · simp at h
  · obtain ⟨cards, intentT, firstT, nextT, reviewT, intent, questionV, evs2,
      hc, hi, hf, hn, hr, hcall, hq, hsteps, hrev, hfiles, htr⟩ :=
      runMain_ok env tr s review files h
    have hpos := runSteps_ok_positions env cards firstT nextT _ _ _ _ _ hsteps
    simp [initState] at hpos
    refine ⟨hpos, ?_⟩
    have hlen := congrArg List.length hpos
    simpa using hlen

/-- C1 witness: the concrete witness run instantiates the theorem. -/
theorem C1_witness :
    stateW.draw_history.map (fun d => d.position) = ["past", "present", "future"] ∧
    stateW.draw_history.length = 3 :=
  C1_draw_history_three_positions envW traceW stateW
    "All three cards point to renewal." filesW runProgram_envW

/-- The loop only appends to draw_history: the intent-derived state fields
survive to the final state. -/
theorem runSteps_preserves_intent (env : Env) (cards : List Card) (firstT nextT : String) :
    ∀ (posList : List String) (state : SessionState) (step : Nat) (evs : List Event)
      (s2 : SessionState),
      runSteps env cards firstT nextT state step posList = (evs, .ok s2) →
      s2.topic = state.topic ∧ s2.question = state.question ∧
      s2.emotion = state.emotion ∧ s2.constraints = state.constraints := by
  intro posList
  induction posList with
  | nil =>
    intro state step evs s2 h
    simp [runSteps] at h
    rw [← h.2]
    exact ⟨rfl, rfl, rfl, rfl⟩
  | cons pos rest ih =>
    intro state step evs s2 h
    rw [runSteps] at h
    split at h
    · simp at h
    · rename_i cn o kw hdraw
      split at h
      · simp at h
      · rename_i evs1 interp hint
        dsimp only at h
        rcases h2 : runSteps env cards firstT nextT
            { state with draw_history :=
                state.draw_history ++ [⟨step, pos, cn, o, kw, interp⟩] }
            (step + 1) rest with ⟨evs2, res⟩
        rw [h2] at h
        simp at h
        obtain ⟨hevs, hres⟩ := h
        subst hres
        simpa using ih _ _ _ _ h2

/-- C6: when the intent service reply is a structured object containing only
the field question, the session state carries the sentinel emotion "other",
an empty constraints sequence and the user-supplied topic hint (and the
reply's question); these fields survive unchanged to the final state of a
successful run. -/
theorem C6_intent_defaults (env : Env) (q : Json) (tr : List Event)
    (s : SessionState) (review : String) (files : List (String × FileContent))
    (hreply : env.llmJson 0 = some (Json.obj [("question", q)]))
    (h : runProgram env = (tr, .ok (s, review, files))) :
    s.emotion = Json.str "other" ∧ s.constraints = Json.arr [] ∧
    s.topic = Json.str env.topicInput ∧ s.question = q := by
  unfold runProgram at h
  dsimp only at h
  split at h
  · simp at h
  obtain ⟨cards, intentT, firstT, nextT, reviewT, intent, questionV, evs2,
    hc, hi, hf, hn, hr, hcall, hq, hsteps, hrev, hfiles, htr⟩ :=
    runMain_ok env tr s review files h
  obtain ⟨_, hreply2⟩ := call_llm_json_ok _ _ _ _ _ _ hcall
  rw [hreply] at hreply2
  have hintent : intent = Json.obj [("question", q)] := by
    injection hreply2 with h3
    exact h3.symm
  subst hintent
  have hqv : questionV = q := by
    simp [Json.get, lookupField] at hq
    exact hq.symm
  subst hqv
  obtain ⟨ht, hqq, he, hcs⟩ :=
    runSteps_preserves_intent env cards firstT nextT _ _ _ _ _ hsteps
  refine ⟨?_, ?_, ?_, ?_⟩ <;>
    simp [initState, Json.get, lookupField, ht, hqq, he, hcs]

/-- C6 witness: the witness run has exactly such an intent reply. -/
theorem C6_witness :
    stateW.emotion = Json.str "other" ∧ stateW.constraints = Json.arr [] ∧
    stateW.topic = Json.str envW.topicInput ∧
    stateW.question = Json.str "Will we reconcile?" :=
  C6_intent_defaults envW (Json.str "Will we reconcile?") traceW stateW
    "All three cards point to renewal." filesW rfl runProgram_envW

/-- C9: when the API key is absent from the process environment (os.getenv
falls back to the configured empty string), the program fails fatally at
startup with an empty trace: no card data or template has been read, no user
prompt issued, no service call made, no draw made, no file written. -/
theorem C9_missing_key_fatal_startup (env : Env) (h : env.apiKeyEnv = none) :
    runProgram env = ([], .error .missingApiKey) := by
  unfold runProgram
  rw [h]
  rfl

/-- C9 witness: a concrete environment with no key set. -/
theorem C9_witness : runProgram { envW with apiKeyEnv := none } =
    ([], .error .missingApiKey) :=
  C9_missing_key_fatal_startup { envW with apiKeyEnv := none } rfl

/-- C2: when the parsed intent reply lacks the required question field the
session aborts: the result is an error (the KeyError of line 81, unless an
earlier stage already failed), the trace contains no draw event and no
file-write event (in particular neither run_T.json nor run_T.md is written),
and the intent service was called at most once (no retry). -/
theorem C2_missing_question_aborts (env : Env) (intent : Json)
    (hreply : env.llmJson 0 = some intent)
    (hnoq : Json.get intent "question" = none) :
    (∃ e, (runProgram env).2 = .error e) ∧
    (runProgram env).1.all (fun ev => !ev.isDraw && !ev.isWrite) = true ∧
    (runProgram env).1.countP (fun ev => ev.isIntent) ≤ 1 := by
  unfold runProgram
  dsimp only
  split
  · exact ⟨⟨_, rfl⟩, rfl, by decide⟩
  unfold runMain
  split
  · exact ⟨⟨_, rfl⟩, rfl, by decide⟩
  split
  · exact ⟨⟨_, rfl⟩, rfl, by decide⟩
  split
  · exact ⟨⟨_, rfl⟩, rfl, by decide⟩
  split
  · exact ⟨⟨_, rfl⟩, rfl, by decide⟩
  split
  · exact ⟨⟨_, rfl⟩, rfl, by decide⟩
  split
  · rename_i evs1 e hcall
    rcases call_llm_json_events _ _ _ _ _ _ hcall with h1 | h1 <;> subst h1 <;>
      refine ⟨⟨_, rfl⟩, ?_, ?_⟩ <;> dsimp only <;> decide
  · rename_i evs1 intent0 hcall
    obtain ⟨hevs1, hr0⟩ := call_llm_json_ok _ _ _ _ _ _ hcall
    subst hevs1
    rw [hreply] at hr0
    injection hr0 with hi0
    subst hi0
    split
    · exact ⟨⟨_, rfl⟩, by decide, by decide⟩
    · rename_i qv hq
      rw [hnoq] at hq
      exact Option.noConfusion hq

/-- An environment whose intent reply is an object without question. -/
def envNoQ : Env :=
  { envW with llmJson := fun n =>
      if n = 0 then some (Json.obj [("topic", Json.str "love")])
      else some (Json.obj []) }

/-- C2 witness: on envNoQ the session aborts with no draw, no file, and a
single intent call. -/
theorem C2_witness :
    (∃ e, (runProgram envNoQ).2 = .error e) ∧
    (runProgram envNoQ).1.all (fun ev => !ev.isDraw && !ev.isWrite) = true ∧
    (runProgram envNoQ).1.countP (fun ev => ev.isIntent) ≤ 1 :=
  C2_missing_question_aborts envNoQ (Json.obj [("topic", Json.str "love")]) rfl rfl

/-- A list mapped into JSON strings deserializes back. -/
theorem strListOfJson_map (ks : List String) :
    strListOfJson (ks.map Json.str) = some ks := by
  induction ks with
  | nil => rfl
  | cons k ks ih => simp [strListOfJson, ih]

/-- A serialized draw record deserializes to itself. -/
theorem drawRecord_round_trip (d : DrawRecord) :
    DrawRecord.ofJson (DrawRecord.toJson d) = some d := by
  simp [DrawRecord.ofJson, DrawRecord.toJson, Json.get, lookupField, strListOfJson_map]

/-- A serialized draw history deserializes to itself. -/
theorem drawListOfJson_map (ds : List DrawRecord) :
    drawListOfJson (ds.map DrawRecord.toJson) = some ds := by
  induction ds with
  | nil => rfl
  | cons d ds ih => simp [drawListOfJson, drawRecord_round_trip, ih]

/-- A serialized session state deserializes to itself. -/
theorem sessionState_round_trip (s : SessionState) :
    SessionState.ofJson (SessionState.toJson s) = some s := by
  simp [SessionState.ofJson, SessionState.toJson, Json.get, lookupField,
    drawListOfJson_map]

/-- C3: given final state S, review text R and timestamp T, the recorder
produces exactly two files, named run_T.json and run_T.md with the same T;
the md file holds R verbatim and the json file holds the serialized S, which
deserializes back to a state equal to S. -/
theorem C3_recorder_round_trip (S : SessionState) (R T : String) :
    (recorder S R T).length = 2 ∧
    (recorder S R T).map Prod.fst = ["run_" ++ T ++ ".json", "run_" ++ T ++ ".md"] ∧
    recorder S R T = [("run_" ++ T ++ ".json", .jsonFile (SessionState.toJson S)),
      ("run_" ++ T ++ ".md", .textFile R)] ∧
    SessionState.ofJson (SessionState.toJson S) = some S :=
  ⟨rfl, rfl, rfl, sessionState_round_trip S⟩

/-- What a successful draw returns, relative to the deck. -/
theorem draw_card_ok_spec (cards : List Card) (i : Nat) (b : Bool)
    (name o : String) (kw : List String)
    (h : draw_card cards i b = .ok (name, o, kw)) :
    ∃ c ∈ cards, name = c.name ∧ o = (if b then "upright" else "reversed") ∧
      kw = (if o = "upright" then c.upright_keywords else c.reversed_keywords) := by
  unfold draw_card at h
  split at h
  · simp at h
  · rename_i c hc
    dsimp only at h
    simp only [Except.ok.injEq, Prod.mk.injEq] at h
    obtain ⟨h1, h2, h3⟩ := h
    refine ⟨c, List.get?_mem hc, h1.symm, h2.symm, ?_⟩
    rw [← h2, ← h3]

/-- C4: every successful draw yields an orientation that is upright or
reversed, and keywords exactly the selected card's keyword list for that
orientation (upright_keywords when upright, reversed_keywords when
reversed). -/
theorem C4_draw_orientation_keywords (cards : List Card) (i : Nat) (b : Bool)
    (name o : String) (kw : List String)
    (h : draw_card cards i b = .ok (name, o, kw)) :
    (o = "upright" ∨ o = "reversed") ∧
    ∃ c ∈ cards, name = c.name ∧
      kw = (if o = "upright" then c.upright_keywords else c.reversed_keywords) := by
  obtain ⟨c, hc, h1, h2, h3⟩ := draw_card_ok_spec cards i b name o kw h
  refine ⟨?_, c, hc, h1, h3⟩
  cases b <;> simp [h2]

/-- C4 witness at a concrete one-card deck. -/
theorem C4_witness :
    (("reversed" : String) = "upright" ∨ ("reversed" : String) = "reversed") ∧
    ∃ c ∈ [theFool], "The Fool" = c.name ∧
      ["recklessness"] =
        (if ("reversed" : String) = "upright" then c.upright_keywords
         else c.reversed_keywords) :=
  C4_draw_orientation_keywords [theFool] 5 false "The Fool" "reversed"
    ["recklessness"] (by rfl)

/-- C10: called on an empty deck, draw fails with IndexError and returns no
value; on a non-empty deck that error branch is unreachable and draw always
returns a (card_name, orientation, keywords) triple. -/
theorem C10_draw_empty_vs_nonempty (cards : List Card) (i : Nat) (b : Bool) :
    (cards = [] → draw_card cards i b = .error .indexError) ∧
    (cards ≠ [] → ∃ name o kw, draw_card cards i b = .ok (name, o, kw)) := by
  constructor
  · intro h
    subst h
    simp [draw_card]
  · intro h
    unfold draw_card
    have hlt : i % cards.length < cards.length :=
      Nat.mod_lt _ (List.length_pos.mpr h)
    rw [List.get?_eq_get hlt]
    exact ⟨_, _, _, rfl⟩

/-- C10 witness: the empty deck fails, a one-card deck succeeds. -/
theorem C10_witness :
    draw_card [] 0 true = .error .indexError ∧
    ∃ name o kw, draw_card [theFool] 0 true = .ok (name, o, kw) :=
  ⟨(C10_draw_empty_vs_nonempty [] 0 true).1 rfl,
   (C10_draw_empty_vs_nonempty [theFool] 0 true).2 (by decide)⟩

/-- Appending the next element to an initial segment of the positive
integers. -/
theorem range'_concat_one : ∀ (n s : Nat), List.range' s (n + 1) = List.range' s n ++ [s + n] := by
  intro n
  induction n with
  | zero => intro s; simp [List.range']
  | succ n ih =>
    intro s
    rw [List.range'_succ]
    conv_rhs => rw [List.range'_succ]
    rw [ih (s + 1)]
    simp [Nat.add_assoc, Nat.add_comm, Nat.add_left_comm]

/-- A successful interpretation call received exactly the oracle reply of its
step and issued exactly one request, of the variant matching the step. -/
theorem interpCall_ok (env : Env) (firstT nextT : String) (state : SessionState)
    (step : Nat) (pos cn o : String) (kw : List String) (evs : List Event) (interp : Json)
    (h : interpCall env firstT nextT state step pos cn o kw = (evs, .ok interp)) :
    env.llmJson step = some interp ∧
    evs = [if step = 1 then Event.firstInterpretCall
           else Event.nextInterpretCall step state.draw_history] := by
  unfold interpCall at h
  split at h
  · rename_i h1
    obtain ⟨he, hr⟩ := call_llm_json_ok _ _ _ _ _ _ h
    exact ⟨hr, by simp [he, h1]⟩
  · rename_i h1
    obtain ⟨he, hr⟩ := call_llm_json_ok _ _ _ _ _ _ h
    exact ⟨hr, by simp [he, h1]⟩

/-- An interpretation call emits at most its single matching request. -/
theorem interpCall_events (env : Env) (firstT nextT : String) (state : SessionState)
    (step : Nat) (pos cn o : String) (kw : List String) (evs : List Event)
    (r : Except Err Json)
    (h : interpCall env firstT nextT state step pos cn o kw = (evs, r)) :
    evs = [] ∨ evs = [if step = 1 then Event.firstInterpretCall
                      else Event.nextInterpretCall step state.draw_history] := by
  unfold interpCall at h
  split at h
  · rename_i h1
    rcases call_llm_json_events _ _ _ _ _ _ h with h2 | h2
    · exact Or.inl h2
    · right
      simp [h1, h2]
  · rename_i h1
    rcases call_llm_json_events _ _ _ _ _ _ h with h2 | h2
    · exact Or.inl h2
    · right
      simp [h1, h2]

/-- Trace invariant of the loop: under the history invariant (records of
steps 1..step-1 in order, interpretations equal to their own replies), every
subsequent-variant request among the emitted events carries the full prior
history of its step. -/
theorem runSteps_nextCall_history (env : Env) (cards : List Card) (firstT nextT : String) :
    ∀ (posList : List String) (state : SessionState) (step : Nat) (evs : List Event)
      (r : Except Err SessionState),
      1 ≤ step →
      state.draw_history.map (fun d => d.step) = List.range' 1 (step - 1) →
      (∀ d ∈ state.draw_history, env.llmJson d.step = some d.interpretation) →
      runSteps env cards firstT nextT state step posList = (evs, r) →
      ∀ (n : Nat) (hist : List DrawRecord), Event.nextInterpretCall n hist ∈ evs →
        2 ≤ n ∧ hist.map (fun d => d.step) = List.range' 1 (n - 1) ∧
        hist.length = n - 1 ∧
        ∀ d ∈ hist, env.llmJson d.step = some d.interpretation := by
  intro posList
  induction posList with
  | nil =>
    intro state step evs r h1 h2 h3 h
    simp [runSteps] at h
    obtain ⟨he0, hr0⟩ := h
    subst he0
    intro n hist hm
    simp at hm
  | cons pos rest ih =>
    intro state step evs r h1 h2 h3 h
    rw [runSteps] at h
    split at h
    · simp at h
      obtain ⟨he0, hr0⟩ := h
      subst he0
      intro n hist hm
      simp at hm
    · rename_i cn o kw hdraw
      split at h
      · rename_i evs1 e hint
        simp at h
        obtain ⟨he0, hr0⟩ := h
        subst he0
        intro n hist hm
        simp at hm
        rcases interpCall_events _ _ _ _ _ _ _ _ _ _ _ hint with he | he <;> subst he
        · simp at hm
        · by_cases hs : step = 1
          · simp [hs] at hm
          · simp [hs] at hm
            obtain ⟨hn, hh⟩ := hm
            subst hn
            subst hh
            refine ⟨by omega, h2, ?_, h3⟩
            have := congrArg List.length h2
            simpa using this
      · rename_i evs1 interp hint
        dsimp only at h
        rcases hrec : runSteps env cards firstT nextT
            { state with draw_history :=
                state.draw_history ++ [⟨step, pos, cn, o, kw, interp⟩] }
            (step + 1) rest with ⟨evs2, res⟩
        rw [hrec] at h
        simp at h
        rw [← h.1]
        intro n hist hm
        obtain ⟨hreply, he⟩ := interpCall_ok _ _ _ _ _ _ _ _ _ _ _ hint
        subst he
        have hnext := ih { state with draw_history :=
              state.draw_history ++ [⟨step, pos, cn, o, kw, interp⟩] }
            (step + 1) evs2 res (by omega) ?inv2 ?inv3 hrec
        · simp at hm
          rcases hm with hm | hm
          · by_cases hs : step = 1
            · simp [hs] at hm
            · simp [hs] at hm
              obtain ⟨hn, hh⟩ := hm
              subst hn
              subst hh
              refine ⟨by omega, h2, ?_, h3⟩
              have := congrArg List.length h2
              simpa using this
          · exact hnext n hist hm
        case inv2 =>
          simp only [Nat.add_sub_cancel]
          have hstep : step = (step - 1) + 1 := by omega
          simp [h2]
          rw [show List.range' 1 step = List.range' 1 ((step - 1) + 1) by rw [← hstep],
            range'_concat_one]
          have : 1 + (step - 1) = step := by omega
          rw [this]
        case inv3 =>
          intro d hd
          simp at hd
          rcases hd with hd | hd
          · exact h3 d hd
          · subst hd
            exact hreply

/-- On a successful loop run, every step in range other than step 1 issued a
subsequent-variant request. -/
theorem runSteps_ok_calls (env : Env) (cards : List Card) (firstT nextT : String) :
    ∀ (posList : List String) (state : SessionState) (step : Nat) (evs : List Event)
      (s2 : SessionState),
      runSteps env cards firstT nextT state step posList = (evs, .ok s2) →
      ∀ k, step ≤ k → k < step + posList.length → k ≠ 1 →
        ∃ hist, Event.nextInterpretCall k hist ∈ evs := by
  intro posList
  induction posList with
  | nil =>
    intro state step evs s2 h k hk1 hk2 hk3
    simp at hk2
    omega
  | cons pos rest ih =>
    intro state step evs s2 h k hk1 hk2 hk3
    rw [runSteps] at h
    split at h
    · simp at h
    · rename_i cn o kw hdraw
      split at h
      · simp at h
      · rename_i evs1 interp hint
        dsimp only at h
        rcases hrec : runSteps env cards firstT nextT
            { state with draw_history :=
                state.draw_history ++ [⟨step, pos, cn, o, kw, interp⟩] }
            (step + 1) rest with ⟨evs2, res⟩
        rw [hrec] at h
        simp at h
        obtain ⟨hevs, hres⟩ := h
        subst hres
        subst hevs
        obtain ⟨hreply, he⟩ := interpCall_ok _ _ _ _ _ _ _ _ _ _ _ hint
        subst he
        by_cases hk : k = step
        · subst hk
          refine ⟨state.draw_history, ?_⟩
          simp [hk3]
        · have hstep1 : step + 1 ≤ k := by omega
          have hstep2 : k < step + 1 + rest.length := by
            simp at hk2
            omega
          obtain ⟨hist, hmem⟩ := ih _ _ _ _ hrec k hstep1 hstep2 hk3
          exact ⟨hist, by simp [hmem]⟩

/-- C5: every subsequent-variant interpretation call of a successful session
carries the full prior history: exactly n-1 records, with step fields 1..n-1
in order and each interpretation already populated by the reply its own step
received; hence step n is never requested before step n-1's record has been
appended.  In particular the step-3 call is made and its serialized history
holds exactly the 2 records of steps 1 and 2. -/
theorem C5_history_passed_sequentially (env : Env) (tr : List Event) (s : SessionState)
    (review : String) (files : List (String × FileContent))
    (h : runProgram env = (tr, .ok (s, review, files))) :
    (∀ (n : Nat) (hist : List DrawRecord), Event.nextInterpretCall n hist ∈ tr →
      2 ≤ n ∧ hist.map (fun d => d.step) = List.range' 1 (n - 1) ∧
      hist.length = n - 1 ∧
      ∀ d ∈ hist, env.llmJson d.step = some d.interpretation) ∧
    (∃ hist, Event.nextInterpretCall 3 hist ∈ tr ∧ hist.length = 2 ∧
      hist.map (fun d => d.step) = [1, 2] ∧
      ∀ d ∈ hist, env.llmJson d.step = some d.interpretation) := by
  unfold runProgram at h
  dsimp only at h
  split at h
  · simp at h
  obtain ⟨cards, intentT, firstT, nextT, reviewT, intent, questionV, evs2,
    hc, hi, hf, hn, hr, hcall, hq, hsteps, hrev, hfiles, htr⟩ :=
    runMain_ok env tr s review files h
  have hinv := runSteps_nextCall_history env cards firstT nextT
    ["past", "present", "future"] (initState env intent questionV) 1 evs2
    (.ok s) (by omega) (by simp [initState]) (by simp [initState]) hsteps
  constructor
  · intro n hist hm
    rw [htr] at hm
    simp [startupEvents, recorder] at hm
    exact hinv n hist hm
  · obtain ⟨hist, hmem⟩ := runSteps_ok_calls env cards firstT nextT
      ["past", "present", "future"] (initState env intent questionV) 1 evs2 s
      hsteps 3 (by omega) (by simp) (by omega)
    obtain ⟨h2n, hmap, hlen, hints⟩ := hinv 3 hist hmem
    refine ⟨hist, ?_, hlen, ?_, hints⟩
    · rw [htr]
      simp [hmem]
    · simpa [List.range'] using hmap

/-- C5 witness: the witness run instantiates the theorem; its step-3 call
indeed carries the records of steps 1 and 2. -/
theorem C5_witness :
    (∀ (n : Nat) (hist : List DrawRecord), Event.nextInterpretCall n hist ∈ traceW →
      2 ≤ n ∧ hist.map (fun d => d.step) = List.range' 1 (n - 1) ∧
      hist.length = n - 1 ∧
      ∀ d ∈ hist, envW.llmJson d.step = some d.interpretation) ∧
    (∃ hist, Event.nextInterpretCall 3 hist ∈ traceW ∧ hist.length = 2 ∧
      hist.map (fun d => d.step) = [1, 2] ∧
      ∀ d ∈ hist, envW.llmJson d.step = some d.interpretation) :=
  C5_history_passed_sequentially envW traceW stateW
    "All three cards point to renewal." filesW runProgram_envW

/-- Every record a loop run appends was built from a successful draw over the
deck: the card field holds a deck card's name, the keywords are that card's
list for the chosen orientation, the position is one of the driven positions
and the step lies in the driven range. -/
theorem runSteps_ok_records (env : Env) (cards : List Card) (firstT nextT : String) :
    ∀ (posList : List String) (state : SessionState) (step : Nat) (evs : List Event)
      (s2 : SessionState),
      runSteps env cards firstT nextT state step posList = (evs, .ok s2) →
      ∀ d ∈ s2.draw_history, d ∈ state.draw_history ∨
        (step ≤ d.step ∧ d.step < step + posList.length ∧ d.position ∈ posList ∧
         (d.orientation = "upright" ∨ d.orientation = "reversed") ∧
         ∃ c ∈ cards, d.card = c.name ∧
           d.keywords = (if d.orientation = "upright" then c.upright_keywords
                         else c.reversed_keywords)) := by
  intro posList
  induction posList with
  | nil =>
    intro state step evs s2 h d hd
    simp [runSteps] at h
    rw [← h.2] at hd
    exact Or.inl hd
  | cons pos rest ih =>
    intro state step evs s2 h d hd
    rw [runSteps] at h
    split at h
    · simp at h
    · rename_i cn o kw hdraw
      split at h
      · simp at h
      · rename_i evs1 interp hint
        dsimp only at h
        rcases hrec : runSteps env cards firstT nextT
            { state with draw_history :=
                state.draw_history ++ [⟨step, pos, cn, o, kw, interp⟩] }
            (step + 1) rest with ⟨evs2, res⟩
        rw [hrec] at h
        simp at h
        obtain ⟨hevs, hres⟩ := h
        subst hres
        rcases ih _ _ _ _ hrec d hd with hold | hnew
        · simp at hold
          rcases hold with hold | hold
          · exact Or.inl hold
          · right
            subst hold
            obtain ⟨c, hc, h1, h2, h3⟩ :=
              draw_card_ok_spec cards (env.cardChoice step) (env.orientChoice step)
                cn o kw hdraw
            refine ⟨by simp, by simp, by simp, ?_, c, hc, h1, h3⟩
            subst h2
            cases henv : env.orientChoice step <;> simp
        · right
          obtain ⟨ha, hb, hcpos, hdor, hrest⟩ := hnew
          exact ⟨by omega, by simp; omega, by simp [hcpos], hdor, hrest⟩

/-- C8 (amended): every record of a completed session has a step in 1..3, a
position among the three spread positions, an orientation that is upright or
reversed, a card field holding the name of a deck card, and its dictionary
form carries exactly the keys step, position, card, orientation, keywords and
interpretation - the drawn card's name sits under the key card (there is no
key card_name). -/
theorem C8_record_fields (env : Env) (tr : List Event) (s : SessionState)
    (review : String) (files : List (String × FileContent)) (cards : List Card)
    (hcards : env.cards = some cards)
    (h : runProgram env = (tr, .ok (s, review, files))) :
    ∀ d ∈ s.draw_history,
      1 ≤ d.step ∧ d.step ≤ 3 ∧
      d.position ∈ (["past", "present", "future"] : List String) ∧
      (d.orientation = "upright" ∨ d.orientation = "reversed") ∧
      (∃ c ∈ cards, d.card = c.name ∧
        d.keywords = (if d.orientation = "upright" then c.upright_keywords
                      else c.reversed_keywords)) ∧
      objKeys (DrawRecord.toJson d) =
        ["step", "position", "card", "orientation", "keywords", "interpretation"] ∧
      Json.get (DrawRecord.toJson d) "card" = some (Json.str d.card) ∧
      Json.get (DrawRecord.toJson d) "card_name" = none := by
  unfold runProgram at h
  dsimp only at h
  split at h
  · simp at h
  obtain ⟨cards0, intentT, firstT, nextT, reviewT, intent, questionV, evs2,
    hc, hi, hf, hn, hr, hcall, hq, hsteps, hrev, hfiles, htr⟩ :=
    runMain_ok env tr s review files h
  rw [hcards] at hc
  injection hc with hc
  subst hc
  intro d hd
  rcases runSteps_ok_records env cards firstT nextT _ _ _ _ _ hsteps d hd with h0 | h0
  · simp [initState] at h0
  · obtain ⟨ha, hb, hpos, hor, hcard⟩ := h0
    simp at hb
    refine ⟨ha, by omega, hpos, hor, hcard, ?_, ?_, ?_⟩ <;>
      simp [DrawRecord.toJson, objKeys, Json.get, lookupField]

/-- C8 counterexample: the records the program actually appends store the
drawn card's name under the dictionary key card; the serialized records of
the witness run carry no card_name key at all. -/
theorem C8_counterexample :
    (runProgram envW).2 = .ok (stateW, "All three cards point to renewal.", filesW) ∧
    stateW.draw_history.map (fun d => Json.get (DrawRecord.toJson d) "card_name") =
      [none, none, none] ∧
    stateW.draw_history.map (fun d => Json.get (DrawRecord.toJson d) "card") =
      [some (Json.str "The Fool"), some (Json.str "The Fool"),
       some (Json.str "The Fool")] :=
  ⟨by rw [runProgram_envW], rfl, rfl⟩

/-- C8 witness: the amended statement at the first record of the witness
run. -/
theorem C8_witness :
    1 ≤ (recW 1 "past").step ∧ (recW 1 "past").step ≤ 3 ∧
    (recW 1 "past").position ∈ (["past", "present", "future"] : List String) ∧
    ((recW 1 "past").orientation = "upright" ∨
      (recW 1 "past").orientation = "reversed") ∧
    (∃ c ∈ [theFool], (recW 1 "past").card = c.name ∧
      (recW 1 "past").keywords =
        (if (recW 1 "past").orientation = "upright" then c.upright_keywords
         else c.reversed_keywords)) ∧
    objKeys (DrawRecord.toJson (recW 1 "past")) =
      ["step", "position", "card", "orientation", "keywords", "interpretation"] ∧
    Json.get (DrawRecord.toJson (recW 1 "past")) "card" =
      some (Json.str (recW 1 "past").card) ∧
    Json.get (DrawRecord.toJson (recW 1 "past")) "card_name" = none :=
  C8_record_fields envW traceW stateW "All three cards point to renewal." filesW
    [theFool] rfl runProgram_envW (recW 1 "past") (List.mem_cons_self _ _)

/-- Scanner step: an escaped opening brace. -/
theorem collect_text_escape_open (r : List Char) :
    collectRefsM .text ('{' :: '{' :: r) = collectRefsM .text r := rfl

/-- Scanner step: an escaped closing brace. -/
theorem collect_text_escape_close (r : List Char) :
    collectRefsM .text ('}' :: '}' :: r) = collectRefsM .text r := rfl

/-- Scanner step: an opening brace starts a field. -/
theorem collect_text_open (c2 : Char) (r : List Char) (h : ¬c2 = '{') :
    collectRefsM .text ('{' :: c2 :: r) = collectRefsM (.field []) (c2 :: r) := by
  simp only [collectRefsM]
  simp [h]

/-- Scanner step: ordinary text is skipped. -/
theorem collect_text_other (c : Char) (r : List Char) (h1 : ¬c = '{') (h2 : ¬c = '}') :
    collectRefsM .text (c :: r) = collectRefsM .text r := by
  rw [collectRefsM.eq_def]
  simp [h1, h2]

/-- Scanner step: a closing brace completes a well-formed field name. -/
theorem collect_field_close (nm : List Char) (r : List Char)
    (h1 : ¬nm.isEmpty = true) (h2 : ¬(nm.all fun ch => ch.isDigit) = true) :
    collectRefsM (.field nm) ('}' :: r) =
      (match collectRefsM .text r with
       | none => none
       | some ns => some (String.mk nm :: ns)) := by
  simp only [collectRefsM]
  simp [h1, h2]

/-- Scanner step: a field name grows by one character. -/
theorem collect_field_cont (nm : List Char) (c : Char) (r : List Char)
    (h1 : ¬c = '}') (h2 : ¬c = '{') :
    collectRefsM (.field nm) (c :: r) = collectRefsM (.field (nm ++ [c])) r := by
  simp only [collectRefsM]
  simp [h1, h2]

/-- Format step: an escaped opening brace. -/
theorem render_text_escape_open (vars : List (String × String)) (r : List Char) :
    renderFmt vars .text ('{' :: '{' :: r) =
      (match renderFmt vars .text r with
       | .error e => .error e
       | .ok out => .ok ("\x7b" ++ out)) := rfl

/-- Format step: an escaped closing brace. -/
theorem render_text_escape_close (vars : List (String × String)) (r : List Char) :
    renderFmt vars .text ('}' :: '}' :: r) =
      (match renderFmt vars .text r with
       | .error e => .error e
       | .ok out => .ok ("\x7d" ++ out)) := rfl

/-- Format step: an opening brace starts a field. -/
theorem render_text_open (vars : List (String × String)) (c2 : Char) (r : List Char)
    (h : ¬c2 = '{') :
    renderFmt vars .text ('{' :: c2 :: r) = renderFmt vars (.field []) (c2 :: r) := by
  simp only [renderFmt]
  simp [h]

/-- Format step: ordinary text is copied. -/
theorem render_text_other (vars : List (String × String)) (c : Char) (r : List Char)
    (h1 : ¬c = '{') (h2 : ¬c = '}') :
    renderFmt vars .text (c :: r) =
      (match renderFmt vars .text r with
       | .error e => .error e
       | .ok out => .ok (String.mk [c] ++ out)) := by
  rw [renderFmt.eq_def]
  simp [h1, h2]

/-- Format step: a closing brace completes a well-formed field name, whose
value is looked up and spliced. -/
theorem render_field_close (vars : List (String × String)) (nm : List Char) (r : List Char)
    (h1 : ¬nm.isEmpty = true) (h2 : ¬(nm.all fun ch => ch.isDigit) = true) :
    renderFmt vars (.field nm) ('}' :: r) =
      (match lookupVar vars (String.mk nm) with
       | none => .error (.keyError (String.mk nm))
       | some v =>
         match renderFmt vars .text r with
         | .error e => .error e
         | .ok out => .ok (v ++ out)) := by
  simp only [renderFmt]
  simp [h1, h2]

/-- Format step: a field name grows by one character. -/
theorem render_field_cont (vars : List (String × String)) (nm : List Char) (c : Char)
    (r : List Char) (h1 : ¬c = '}') (h2 : ¬c = '{') :
    renderFmt vars (.field nm) (c :: r) = renderFmt vars (.field (nm ++ [c])) r := by
  simp only [renderFmt]
  simp [h1, h2]

/-- Relating the reference scan to formatting: when the template scans to a
reference list, formatting fails with a KeyError at an absent name whenever
some referenced placeholder is absent from the mapping, and succeeds whenever
every referenced placeholder is present - regardless of the content of the
mapping's values. -/
theorem renderFmt_of_refs (vars : List (String × String)) :
    ∀ (mode : FmtMode) (l : List Char) (ns : List String),
      collectRefsM mode l = some ns →
      ((∃ p ∈ ns, lookupVar vars p = none) →
        ∃ q, lookupVar vars q = none ∧ renderFmt vars mode l = .error (.keyError q)) ∧
      ((∀ p ∈ ns, (lookupVar vars p).isSome) → ∃ out, renderFmt vars mode l = .ok out) := by
  intro mode l
  induction mode, l using collectRefsM.induct with
  | case1 =>
    intro ns h
    simp [collectRefsM] at h
    subst h
    constructor
    · intro ⟨p, hp, _⟩
      simp at hp
    · intro _
      exact ⟨"", rfl⟩
  | case2 =>
    intro ns h
    simp [collectRefsM] at h
  | case3 r ih =>
    intro ns h
    rw [collect_text_escape_open] at h
    obtain ⟨ihm, ihp⟩ := ih ns h
    constructor
    · intro hmiss
      obtain ⟨q, hq, herr⟩ := ihm hmiss
      exact ⟨q, hq, by rw [render_text_escape_open, herr]⟩
    · intro hpres
      obtain ⟨out, hout⟩ := ihp hpres
      exact ⟨_, by rw [render_text_escape_open, hout]⟩
  | case4 c2 r2 hc2 ih =>
    intro ns h
    rw [collect_text_open c2 r2 hc2] at h
    obtain ⟨ihm, ihp⟩ := ih ns h
    constructor
    · intro hmiss
      obtain ⟨q, hq, herr⟩ := ihm hmiss
      exact ⟨q, hq, by rw [render_text_open vars c2 r2 hc2, herr]⟩
    · intro hpres
      obtain ⟨out, hout⟩ := ihp hpres
      exact ⟨_, by rw [render_text_open vars c2 r2 hc2, hout]⟩
  | case5 =>
    intro ns h
    simp [collectRefsM] at h
  | case6 r hbr ih =>
    intro ns h
    rw [collect_text_escape_close] at h
    obtain ⟨ihm, ihp⟩ := ih ns h
    constructor
    · intro hmiss
      obtain ⟨q, hq, herr⟩ := ihm hmiss
      exact ⟨q, hq, by rw [render_text_escape_close, herr]⟩
    · intro hpres
      obtain ⟨out, hout⟩ := ihp hpres
      exact ⟨_, by rw [render_text_escape_close, hout]⟩
  | case7 c2 r2 hc2 hbr =>
    intro ns h
    rw [collectRefsM.eq_def] at h
    simp [hc2] at h
  | case8 c r hc1 hc2 ih =>
    intro ns h
    rw [collect_text_other c r hc1 hc2] at h
    obtain ⟨ihm, ihp⟩ := ih ns h
    constructor
    · intro hmiss
      obtain ⟨q, hq, herr⟩ := ihm hmiss
      exact ⟨q, hq, by rw [render_text_other vars c r hc1 hc2, herr]⟩
    · intro hpres
      obtain ⟨out, hout⟩ := ihp hpres
      exact ⟨_, by rw [render_text_other vars c r hc1 hc2, hout]⟩
  | case9 nm =>
    intro ns h
    simp [collectRefsM] at h
  | case10 nm r hempty =>
    intro ns h
    rw [collectRefsM.eq_def] at h
    simp [hempty] at h
  | case11 nm r hempty hdig =>
    intro ns h
    rw [collectRefsM.eq_def] at h
    simp [hempty, hdig] at h
  | case12 nm r hempty hdig hnone =>
    intro ns h
    rw [collect_field_close nm r hempty hdig, hnone] at h
    simp at h
  | case13 nm r hempty hdig ns2 hsome ih =>
    intro ns h
    rw [collect_field_close nm r hempty hdig, hsome] at h
    simp at h
    subst h
    obtain ⟨ihm, ihp⟩ := ih ns2 hsome
    constructor
    · intro hmiss
      rw [render_field_close vars nm r hempty hdig]
      rcases hmiss with ⟨p, hp, hpn⟩
      simp at hp
      rcases hp with hp | hp
      · subst hp
        exact ⟨String.mk nm, hpn, by rw [hpn]⟩
      · by_cases hnm : lookupVar vars (String.mk nm) = none
        · exact ⟨String.mk nm, hnm, by rw [hnm]⟩
        · obtain ⟨v, hv⟩ := Option.ne_none_iff_exists'.mp hnm
          obtain ⟨q, hq, herr⟩ := ihm ⟨p, hp, hpn⟩
          exact ⟨q, hq, by rw [hv, herr]⟩
    · intro hpres
      rw [render_field_close vars nm r hempty hdig]
      have hnm := hpres (String.mk nm) (by simp)
      obtain ⟨v, hv⟩ := Option.isSome_iff_exists.mp hnm
      obtain ⟨out, hout⟩ := ihp (fun p hp => hpres p (by simp [hp]))
      exact ⟨v ++ out, by rw [hv, hout]⟩
  | case14 nm r hc =>
    intro ns h
    rw [collectRefsM.eq_def] at h
    simp [hc] at h
  | case15 nm c r hc1 hc2 ih =>
    intro ns h
    rw [collect_field_cont nm c r hc1 hc2] at h
    obtain ⟨ihm, ihp⟩ := ih ns h
    constructor
    · intro hmiss
      obtain ⟨q, hq, herr⟩ := ihm hmiss
      exact ⟨q, hq, by rw [render_field_cont vars nm c r hc1 hc2, herr]⟩
    · intro hpres
      obtain ⟨out, hout⟩ := ihp hpres
      exact ⟨_, by rw [render_field_cont vars nm c r hc1 hc2, hout]⟩

/-- C7 (amended): substitution over a well-formed template fails (a KeyError
at an absent name) when the template references a placeholder absent from the
supplied mapping; but when every referenced placeholder is present it
succeeds even when the mapping's string values themselves contain
placeholder syntax - substitution is literal, single-pass and non-recursive,
so such values are spliced verbatim and never cause a failure. -/
theorem C7_format_failure_modes (t : String) (vars : List (String × String))
    (ns : List String) (hrefs : collectRefs t = some ns) :
    ((∃ p ∈ ns, lookupVar vars p = none) →
      ∃ q, lookupVar vars q = none ∧ pythonFormat t vars = .error (.keyError q)) ∧
    ((∀ p ∈ ns, (lookupVar vars p).isSome) → ∃ out, pythonFormat t vars = .ok out) :=
  renderFmt_of_refs vars .text t.data ns hrefs

/-- C7 counterexample: the claim asserts substitution also fails when a
mapping value itself contains placeholder syntax; in fact it succeeds and
splices the value literally, without rescanning it (the spliced text is the
placeholder syntax itself, not the value of b). -/
theorem C7_counterexample :
    pythonFormat "Hi {a}" [("a", "{b}"), ("b", "X")] = .ok "Hi {b}" := rfl

/-- C7 witness: a template whose placeholder is absent fails with KeyError;
the same template with the placeholder mapped to a brace-laden value
succeeds. -/
theorem C7_witness :
    (∃ q, lookupVar [] q = none ∧ pythonFormat "{a}" [] = .error (.keyError q)) ∧
    (∃ out, pythonFormat "{a}" [("a", "{b}")] = .ok out) :=
  ⟨(C7_format_failure_modes "{a}" [] ["a"] rfl).1 ⟨"a", by simp, rfl⟩,
   (C7_format_failure_modes "{a}" [("a", "{b}")] ["a"] rfl).2 (by decide)⟩
